import Mathlib

/-!
Verification development for the NodeODM dashboard server-side extraction
pipeline (`src/app/api/*/[taskId]/route.ts`): archive path resolution, the
LAS/LAZ point-cloud decoders, the binary wire encoding for point buffers,
the disk cache with a one-hour TTL, and the handler error responses.

Numeric conventions of the embedding: raw bytes are `Nat` values below 256,
JS numbers that carry exact integer content (counts, offsets, 16/32-bit
reads) are `Nat`/`Int`, and real-valued coordinate arithmetic is modelled
exactly over `ℚ`.  IEEE-754 double decoding of the LAS header float64
fields is abstracted: those twelve fields are passed to the parser as
already-decoded rationals, while every integer-valued header field is read
from the byte buffer exactly as the TypeScript `DataView` calls do.
-/

namespace ODM

/-- Read one byte (JS `DataView.getUint8`) from a byte list; out-of-range
reads return 0 in the model (the decoders only read in range on valid input). -/
def readByte (buf : List Nat) (i : Nat) : Nat :=
  buf.getD i 0

/-- Little-endian 16-bit unsigned read (`DataView.getUint16(i, true)`). -/
def readUint16LE (buf : List Nat) (i : Nat) : Nat :=
  readByte buf i + 256 * readByte buf (i + 1)

/-- Little-endian 32-bit unsigned read (`DataView.getUint32(i, true)`). -/
def readUint32LE (buf : List Nat) (i : Nat) : Nat :=
  readByte buf i + 256 * readByte buf (i + 1) + 65536 * readByte buf (i + 2)
    + 16777216 * readByte buf (i + 3)

/-- Little-endian signed 32-bit read (`DataView.getInt32(i, true)`). -/
def readInt32LE (buf : List Nat) (i : Nat) : Int :=
  let u := readUint32LE buf i
  if u < 2147483648 then (u : Int) else (u : Int) - 4294967296

/-- Little-endian serialization of a 32-bit unsigned integer
(`DataView.setUint32(0, n, true)`). -/
def u32LE (n : Nat) : List Nat :=
  [n % 256, n / 256 % 256, n / 65536 % 256, n / 16777216 % 256]

/-- An archive entry as exposed by `unzipper.Open.buffer(...)`: a path plus
an opaque payload identity standing for the lazily-read bytes of the entry. -/
structure ZipEntry where
  path : String
  payload : Nat
deriving DecidableEq, Repr

/-- `directory.files.find(f => f.path === p)`: first entry whose path equals
`p` exactly. -/
def findEntry (files : List ZipEntry) (p : String) : Option ZipEntry :=
  files.find? (fun f => f.path = p)

/-- The candidate-path loop shared by `extractOrthomosaic`,
`extractPointCloud` and `extractMesh`: try candidates in declared order and
return the first entry whose archive path equals a candidate exactly. -/
def resolvePath (files : List ZipEntry) : List String → Option ZipEntry
  | [] => none
  | c :: rest =>
    match findEntry files c with
    | some e => some e
    | none => resolvePath files rest

/-- Orthophoto candidate paths, in order of preference (`orthoPaths`). -/
def orthoPaths : List String :=
  ["odm_orthophoto/odm_orthophoto.png",
   "odm_orthophoto/odm_orthophoto.tif",
   "odm_orthophoto/odm_orthophoto.jpg"]

/-- The exact message of the error thrown when no orthophoto candidate path
matches: `throw new Error` with the text "Orthophoto not found in all.zip". -/
def orthoNotFoundMessage : String := "Orthophoto not found in all.zip"

/-- `extractOrthomosaic` restricted to path resolution: returns the matched
entry or the not-found error message. -/
def extractOrthomosaicEntry (files : List ZipEntry) : Except String ZipEntry :=
  match resolvePath files orthoPaths with
  | some e => Except.ok e
  | none => Except.error orthoNotFoundMessage


/-- Parsed LAS header, mirroring the `LASHeader` interface of the source. -/
structure LASHeader where
  pointCount : Nat
  pointDataFormat : Nat
  pointDataRecordLength : Nat
  offsetToPointData : Nat
  scaleX : ℚ
  scaleY : ℚ
  scaleZ : ℚ
  offsetX : ℚ
  offsetY : ℚ
  offsetZ : ℚ
  minX : ℚ
  minY : ℚ
  minZ : ℚ
  maxX : ℚ
  maxY : ℚ
  maxZ : ℚ
deriving Repr

/-- The twelve `getFloat64` fields of the LAS header (scale, offset and
bounding box per axis).  IEEE-754 double decoding from bytes is abstracted:
these are taken as already-decoded exact rationals. -/
structure LASFloatFields where
  scaleX : ℚ
  scaleY : ℚ
  scaleZ : ℚ
  offsetX : ℚ
  offsetY : ℚ
  offsetZ : ℚ
  minX : ℚ
  minY : ℚ
  minZ : ℚ
  maxX : ℚ
  maxY : ℚ
  maxZ : ℚ
deriving Repr

/-- Integer-valued fields of `parseLASHeader`, read from the byte buffer at
the exact offsets of the source (`getUint8(104)`, `getUint16(105, true)`,
`getUint32(107, true)` legacy count, `getUint32(96, true)`); the float64
fields come from the abstracted `LASFloatFields`. -/
def parseLASHeader (buf : List Nat) (fl : LASFloatFields) : LASHeader where
  pointDataFormat := readByte buf 104
  pointDataRecordLength := readUint16LE buf 105
  pointCount := readUint32LE buf 107
  offsetToPointData := readUint32LE buf 96
  scaleX := fl.scaleX
  scaleY := fl.scaleY
  scaleZ := fl.scaleZ
  offsetX := fl.offsetX
  offsetY := fl.offsetY
  offsetZ := fl.offsetZ
  minX := fl.minX
  minY := fl.minY
  minZ := fl.minZ
  maxX := fl.maxX
  maxY := fl.maxY
  maxZ := fl.maxZ

/-- JS assignment into a `Uint8Array`: the integer is reduced modulo 256. -/
def toUint8 (v : ℤ) : Nat := (v % 256).toNat

/-- The check `[2, 3, 5, 7, 8, 10].includes(header.pointDataFormat)`: LAS
point-data formats that carry 16-bit RGB. -/
def lasHasRGB (fmt : Nat) : Bool := [2, 3, 5, 7, 8, 10].contains fmt

/-- The expression `header.pointDataFormat <= 5 ? 20 : 28`: byte offset of
the RGB triple inside a point record. -/
def lasRgbOffset (fmt : Nat) : Nat := if fmt ≤ 5 then 20 else 28

/-- World X of point `i`: `view.getInt32(offset, true) * scaleX + offsetX`. -/
def lasWorldX (h : LASHeader) (buf : List Nat) (i : Nat) : ℚ :=
  (readInt32LE buf (h.offsetToPointData + i * h.pointDataRecordLength) : ℚ) * h.scaleX + h.offsetX

/-- World Y of point `i`: `view.getInt32(offset + 4, true) * scaleY + offsetY`. -/
def lasWorldY (h : LASHeader) (buf : List Nat) (i : Nat) : ℚ :=
  (readInt32LE buf (h.offsetToPointData + i * h.pointDataRecordLength + 4) : ℚ) * h.scaleY + h.offsetY

/-- World Z of point `i`: `view.getInt32(offset + 8, true) * scaleZ + offsetZ`. -/
def lasWorldZ (h : LASHeader) (buf : List Nat) (i : Nat) : ℚ :=
  (readInt32LE buf (h.offsetToPointData + i * h.pointDataRecordLength + 8) : ℚ) * h.scaleZ + h.offsetZ

/-- The three output coordinates of LAS point `i`: bounding-box-midpoint
centering followed by the Y/Z swap of the source
(`positions[i*3] = x - centerX; positions[i*3+1] = z - centerZ;
positions[i*3+2] = -(y - centerY)`). -/
def lasPointPosition (h : LASHeader) (buf : List Nat) (i : Nat) : List ℚ :=
  [lasWorldX h buf i - (h.minX + h.maxX) / 2,
   lasWorldZ h buf i - (h.minZ + h.maxZ) / 2,
   -(lasWorldY h buf i - (h.minY + h.maxY) / 2)]

/-- Height-ramp fallback color: `normalizedZ = (z - minZ) / (maxZ - minZ)`,
then `[floor(nz * 255), floor((1 - nz) * 200 + 55), floor((1 - nz) * 255)]`,
each written into a `Uint8Array`. -/
def heightRampColor (z minZ maxZ : ℚ) : List Nat :=
  let normalizedZ := (z - minZ) / (maxZ - minZ)
  [toUint8 ⌊normalizedZ * 255⌋,
   toUint8 ⌊(1 - normalizedZ) * 200 + 55⌋,
   toUint8 ⌊(1 - normalizedZ) * 255⌋]

/-- Color triple of LAS point `i`: 16-bit RGB scaled to 8-bit when the
format carries RGB and the record fits in the buffer, otherwise the height
ramp on the uncentered world Z. -/
def lasPointColor (h : LASHeader) (buf : List Nat) (i : Nat) : List Nat :=
  let offset := h.offsetToPointData + i * h.pointDataRecordLength
  let ro := lasRgbOffset h.pointDataFormat
  if lasHasRGB h.pointDataFormat ∧ offset + ro + 6 ≤ buf.length then
    [readUint16LE buf (offset + ro) / 256,
     readUint16LE buf (offset + ro + 2) / 256,
     readUint16LE buf (offset + ro + 4) / 256]
  else
    heightRampColor (lasWorldZ h buf i) h.minZ h.maxZ

/-- Result of `convertToPoints`: flat position and color arrays plus the
emitted point count. -/
structure DecodedPoints where
  pointCount : Nat
  positions : List ℚ
  colors : List Nat
deriving Repr

/-- The LAS branch of `convertToPoints`: cap the legacy header count at
`maxPoints`, then emit one position triple and one color triple per point. -/
def convertToPointsLAS (buf : List Nat) (fl : LASFloatFields) (maxPoints : Nat) : DecodedPoints :=
  let h := parseLASHeader buf fl
  let n := min h.pointCount maxPoints
  { pointCount := n
    positions := (List.range n).flatMap (lasPointPosition h buf)
    colors := (List.range n).flatMap (lasPointColor h buf) }

/-- A decompressed point as surfaced by the copc dimension getters: world
X/Y/Z plus the 16-bit RGB triple when the Red/Green/Blue dimensions exist. -/
structure RawPoint where
  x : ℚ
  y : ℚ
  z : ℚ
  rgb : Option (Nat × Nat × Nat)
deriving Repr

/-- One node of the COPC hierarchy; `depth` is the leading segment of the
node key (the key has the shape depth-x-y-z). -/
structure CopcNode where
  depth : Nat
  points : List RawPoint
deriving Repr

/-- Node order used by the COPC sub-path. -/
def copcDepthLE (a b : CopcNode) : Prop := a.depth ≤ b.depth

instance : DecidableRel copcDepthLE := fun a b => Nat.decLe a.depth b.depth

instance : IsTotal CopcNode copcDepthLE := ⟨fun a b => Nat.le_total a.depth b.depth⟩

instance : IsTrans CopcNode copcDepthLE := ⟨fun _ _ _ hab hbc => Nat.le_trans hab hbc⟩

/-- The sort `allNodes.sort((a, b) => depthA - depthB)`: stable ascending
sort of the hierarchy nodes by depth. -/
def copcSortNodes (nodes : List CopcNode) : List CopcNode :=
  List.insertionSort copcDepthLE nodes

/-- The accumulation loop of the COPC sub-path: stop once `maxPoints` is
reached, skip empty nodes (`if (!node.pointCount) continue`), and read
`Math.min(view.pointCount, maxPoints - totalPoints)` points per node. -/
def copcAccum (maxPoints : Nat) : List CopcNode → List RawPoint → List RawPoint
  | [], acc => acc
  | n :: rest, acc =>
    if maxPoints ≤ acc.length then acc
    else if n.points.length = 0 then copcAccum maxPoints rest acc
    else copcAccum maxPoints rest
      (acc ++ n.points.take (min n.points.length (maxPoints - acc.length)))

/-- Color pushed per accumulated COPC point: 16-bit RGB scaled to 8-bit
when the Red/Green/Blue dimensions exist, else the constant
`(128, 128, 128)`. -/
def copcColor (p : RawPoint) : List Nat :=
  match p.rgb with
  | some (r, g, b) => [r / 256, g / 256, b / 256]
  | none => [128, 128, 128]

/-- The output assignment shared by the copc-based paths:
`positions[i*3] = x - centerX; positions[i*3+1] = z - centerZ;
positions[i*3+2] = -(y - centerY)`. -/
def swapCenter (centerX centerY centerZ : ℚ) (p : RawPoint) : List ℚ :=
  [p.x - centerX, p.z - centerZ, -(p.y - centerY)]

/-- Color triple of a sequential-LAZ point: 16-bit RGB scaled to 8-bit when
the Red/Green/Blue dimensions exist, else the height ramp on the header
z-bounds. -/
def lazSeqColor (minZ maxZ : ℚ) (p : RawPoint) : List Nat :=
  match p.rgb with
  | some (r, g, b) => [r / 256, g / 256, b / 256]
  | none => heightRampColor p.z minZ maxZ

/-- Total points available across a COPC hierarchy. -/
def copcAvailable (nodes : List CopcNode) : Nat :=
  (nodes.map (fun n => n.points.length)).sum

/-- The COPC sub-path of `convertToPoints`: error when the hierarchy has no
nodes, otherwise sort by depth, accumulate up to `maxPoints`, compute the
running mean of the accumulated coordinates, and emit positions centered on
that mean with the Y/Z swap. -/
def copcConvert (nodes : List CopcNode) (maxPoints : Nat) : Except String DecodedPoints :=
  if nodes.isEmpty then Except.error "No nodes found in COPC hierarchy"
  else
    let pts := copcAccum maxPoints (copcSortNodes nodes) []
    let total := pts.length
    let centerX := (pts.map RawPoint.x).sum / (total : ℚ)
    let centerY := (pts.map RawPoint.y).sum / (total : ℚ)
    let centerZ := (pts.map RawPoint.z).sum / (total : ℚ)
    Except.ok
      { pointCount := total
        positions := pts.flatMap (swapCenter centerX centerY centerZ)
        colors := pts.flatMap copcColor }

/-- The sequential LAZ sub-path (`copc.Las.create` plus a view over points
`0 .. pointCount`): cap the header count at `maxPoints`, center on the mean
of the selected points, swap axes; colors use 16-bit RGB when the
dimensions exist, else the height ramp on `header.min[2]` and
`header.max[2]`. -/
def lazSeqConvert (pts : List RawPoint) (headerPointCount : Nat) (minZ maxZ : ℚ)
    (maxPoints : Nat) : DecodedPoints :=
  let n := min headerPointCount maxPoints
  let sel := pts.take n
  let centerX := (sel.map RawPoint.x).sum / (n : ℚ)
  let centerY := (sel.map RawPoint.y).sum / (n : ℚ)
  let centerZ := (sel.map RawPoint.z).sum / (n : ℚ)
  { pointCount := n
    positions := sel.flatMap (swapCenter centerX centerY centerZ)
    colors := sel.flatMap (lazSeqColor minZ maxZ) }

/-- The binary layout built by the format=points branch of the GET handler:
a 4-byte little-endian point count, then the position bytes, then the color
bytes, with no padding. -/
def encodePointsWire (pointCount : Nat) (posBytes colBytes : List Nat) : List Nat :=
  u32LE pointCount ++ posBytes ++ colBytes

/-- Wire encoding of a decoded point cloud, given a serializer `f32` that
renders one `Float32` position component as its four bytes (IEEE-754 single
encoding abstracted). -/
def encodeDecoded (f32 : ℚ → List Nat) (d : DecodedPoints) : List Nat :=
  encodePointsWire d.pointCount (d.positions.flatMap f32) d.colors

/-- A cache file on disk: filesystem mtime in milliseconds plus content. -/
structure CacheFile where
  mtime : Int
  content : List Nat
deriving DecidableEq, Repr

/-- The function `getCachedFile`: the cached file is returned exactly when
it exists and `Date.now() - stats.mtimeMs < 60 * 60 * 1000`. -/
def getCachedFile (file : Option CacheFile) (now : Int) : Option CacheFile :=
  match file with
  | none => none
  | some f => if now - f.mtime < 3600000 then some f else none

/-- A cache write `fs.writeFile(cachePath, bytes)`: overwrite the cache
entry in place; its mtime becomes the write time. -/
def cachePut (now : Int) (bytes : List Nat) : Option CacheFile :=
  some { mtime := now, content := bytes }

/-- X-Cache response header value. -/
inductive CacheTag
  | hit
  | miss
deriving DecidableEq, Repr

/-- The cache-or-recompute skeleton shared by the GET handlers: serve the
cached bytes on a fresh hit, leaving the file untouched, otherwise serve
the freshly computed bytes and overwrite the cache. -/
def serveWithCache (state : Option CacheFile) (now : Int) (fresh : List Nat) :
    List Nat × CacheTag × Option CacheFile :=
  match getCachedFile state now with
  | some f => (f.content, CacheTag.hit, state)
  | none => (fresh, CacheTag.miss, cachePut now fresh)

/-- Response of the format=points branch: body, X-Cache tag, cache state. -/
structure WireResponse where
  body : List Nat
  tag : CacheTag
  state : Option CacheFile
deriving DecidableEq, Repr

/-- The format=points branch of the pointcloud GET handler.  The cache key
is the task id plus the fixed suffix points.bin — the requested `maxPoints`
never enters the key: a fresh hit returns the cached buffer unchanged with
X-Cache HIT, and only a miss runs `decode` with the requested `maxPoints`
and caches its encoding. -/
def pointsBranch (state : Option CacheFile) (now : Int) (maxPoints : Nat)
    (decode : Nat → List Nat) : WireResponse :=
  match getCachedFile state now with
  | some f => { body := f.content, tag := CacheTag.hit, state := state }
  | none =>
    let b := decode maxPoints
    { body := b, tag := CacheTag.miss, state := cachePut now b }

/-- Shape of a JSON response: HTTP status plus the body fields the claims
mention (`available` and `error`). -/
structure JsonResponse where
  status : Nat
  available : Option Bool
  error : Option String
deriving DecidableEq, Repr

/-- The catch block of the pointcloud GET handler: info requests get
`NextResponse.json` of available false and the message, with the default
status 200; all other requests get status 500. -/
def pointcloudCatch (infoOnly : Bool) (msg : String) : JsonResponse :=
  if infoOnly then { status := 200, available := some false, error := some msg }
  else { status := 500, available := none, error := some msg }

/-- The catch block of the mesh GET handler, textually identical to the
pointcloud one: info requests get status 200 with available false, other
requests get status 500. -/
def meshCatch (infoOnly : Bool) (msg : String) : JsonResponse :=
  if infoOnly then { status := 200, available := some false, error := some msg }
  else { status := 500, available := none, error := some msg }

/-- The catch block of the orthomosaic GET handler: a JSON body with the
thrown message and status 500. -/
def orthoCatch (msg : String) : JsonResponse :=
  { status := 500, available := none, error := some msg }

/-- The orthomosaic GET handler after a successful archive download: a
resolved orthophoto yields a 200 image response (body abstracted), an
exhausted candidate list reaches the catch block with the thrown message. -/
def orthoResponseOnArchive (files : List ZipEntry) : JsonResponse :=
  match extractOrthomosaicEntry files with
  | Except.ok _ => { status := 200, available := none, error := none }
  | Except.error m => orthoCatch m

/-- Observation helper on a flat xyz list: the componentwise sums
(sum of all X entries, of all Y entries, of all Z entries). -/
def tripleSums : List ℚ → ℚ × ℚ × ℚ
  | x :: y :: z :: rest =>
    let s := tripleSums rest
    (x + s.1, y + s.2.1, z + s.2.2)
  | _ => (0, 0, 0)

/-- A miniature LAS byte buffer for concrete evaluation: all header bytes
zero except record length 20 (offset 105) and legacy point count 2 (offset
107); `offsetToPointData` is 0, so the two point records overlap the
header bytes, which the decoder does not forbid. -/
def sampleLASBuf : List Nat :=
  List.replicate 104 0 ++ [0, 20, 0, 2, 0, 0, 0]

/-- Sample float64 header fields: unit scale, zero offset, bounding box
`[0, 10]` on every axis. -/
def sampleFloatFields : LASFloatFields where
  scaleX := 1
  scaleY := 1
  scaleZ := 1
  offsetX := 0
  offsetY := 0
  offsetZ := 0
  minX := 0
  minY := 0
  minZ := 0
  maxX := 10
  maxY := 10
  maxZ := 10

end ODM

namespace ODM

/-- Length of a flatMap whose pieces all have length `c`. -/
theorem flatMap_length_const {α β : Type} (l : List α) (f : α → List β) (c : Nat)
    (h : ∀ a ∈ l, (f a).length = c) : (l.flatMap f).length = c * l.length := by
  induction l with
  | nil => simp
  | cons a t ih =>
    simp only [List.flatMap_cons, List.length_append, List.length_cons]
    rw [h a (List.mem_cons_self a t), ih (fun x hx => h x (List.mem_cons_of_mem a hx))]
    ring

/-- Indexing into a flatMap whose pieces all have length `c`. -/
theorem flatMap_getD_const {α β : Type} (l : List α) (f : α → List β) (c : Nat)
    (h : ∀ a ∈ l, (f a).length = c) (i k : Nat) (hi : i < l.length) (hk : k < c)
    (da : α) (db : β) :
    (l.flatMap f).getD (c * i + k) db = (f (l.getD i da)).getD k db := by
  induction l generalizing i with
  | nil => simp at hi
  | cons a t ih =>
    have hfa : (f a).length = c := h a (List.mem_cons_self a t)
    cases i with
    | zero =>
      simp only [List.flatMap_cons, Nat.mul_zero, Nat.zero_add, List.getD_cons_zero]
      rw [List.getD_append _ _ _ _ (by rw [hfa]; exact hk)]
    | succ m =>
      have hm : m < t.length := by simpa using Nat.lt_of_succ_lt_succ hi
      simp only [List.flatMap_cons, List.getD_cons_succ]
      rw [List.getD_append_right _ _ _ _ (by rw [hfa]; nlinarith [Nat.zero_le k]),
        show c * (m + 1) + k - (f a).length = c * m + k by rw [hfa]; ring_nf; omega]
      exact ih (fun x hx => h x (List.mem_cons_of_mem a hx)) m hm

/-- Indexing into `List.range`. -/
theorem getD_range_eq (n i : Nat) (hi : i < n) : (List.range n).getD i 0 = i := by
  rw [List.getD_eq_getElem _ _ (by simpa using hi)]
  simp

end ODM

namespace ODM

/-- Length of the COPC accumulation: starting from an accumulator below the
cap, the loop gathers exactly `min (already + available) maxPoints` points. -/
theorem copcAccum_length (m : Nat) (nodes : List CopcNode) (acc : List RawPoint)
    (hacc : acc.length ≤ m) :
    (copcAccum m nodes acc).length
      = min (acc.length + (nodes.map (fun n => n.points.length)).sum) m := by
  induction nodes generalizing acc with
  | nil =>
    simp only [copcAccum, List.map_nil, List.sum_nil, Nat.add_zero]
    omega
  | cons n t ih =>
    simp only [copcAccum, List.map_cons, List.sum_cons]
    by_cases h1 : m ≤ acc.length
    · simp only [h1, if_true]
      omega
    · simp only [h1, if_false]
      by_cases h2 : n.points.length = 0
      · simp only [h2, if_true]
        rw [ih acc hacc]
        omega
      · simp only [h2, if_false]
        rw [ih _ (by simp [List.length_take]; omega)]
        simp only [List.length_append, List.length_take]
        omega

/-- The available total is invariant under the depth sort. -/
theorem copcAvailable_sort (nodes : List CopcNode) :
    copcAvailable (copcSortNodes nodes) = copcAvailable nodes := by
  unfold copcAvailable copcSortNodes
  exact ((List.perm_insertionSort copcDepthLE nodes).map _).sum_eq

/-- C2: every point-cloud decode path returns
`pointCount = min(availablePoints, maxPoints)`: the LAS branch caps the
legacy header count, the sequential LAZ branch caps the header count, and
the COPC accumulation loop truncates at `maxPoints` without erroring on the
excess (it only errors on an empty hierarchy, independent of point counts). -/
theorem decode_pointCount_min :
    (∀ (buf : List Nat) (fl : LASFloatFields) (maxPoints : Nat),
      (convertToPointsLAS buf fl maxPoints).pointCount
        = min (parseLASHeader buf fl).pointCount maxPoints)
  ∧ (∀ (pts : List RawPoint) (headerPointCount : Nat) (minZ maxZ : ℚ) (maxPoints : Nat),
      (lazSeqConvert pts headerPointCount minZ maxZ maxPoints).pointCount
        = min headerPointCount maxPoints)
  ∧ (∀ (nodes : List CopcNode) (maxPoints : Nat),
      (copcConvert nodes maxPoints).toOption.map DecodedPoints.pointCount
        = if nodes.isEmpty then none
          else some (min (copcAvailable nodes) maxPoints)) := by
  refine ⟨fun _ _ _ => rfl, fun _ _ _ _ _ => rfl, fun nodes maxPoints => ?_⟩
  cases nodes with
  | nil => rfl
  | cons a t =>
    have hlen := copcAccum_length maxPoints (copcSortNodes (a :: t)) [] (Nat.zero_le _)
    simp only [List.length_nil, Nat.zero_add] at hlen
    show some (copcAccum maxPoints (copcSortNodes (a :: t)) []).length
        = some (min (copcAvailable (a :: t)) maxPoints)
    rw [hlen,
      show (List.map (fun n => n.points.length) (copcSortNodes (a :: t))).sum
          = copcAvailable (a :: t) from copcAvailable_sort (a :: t)]

end ODM

namespace ODM

/-- Summing a mapped subtraction of a constant. -/
theorem sum_map_sub_const {α : Type} (l : List α) (f : α → ℚ) (c : ℚ) :
    (l.map (fun a => f a - c)).sum = (l.map f).sum - l.length * c := by
  induction l with
  | nil => simp
  | cons a t ih =>
    simp only [List.map_cons, List.sum_cons, List.length_cons, ih]
    push_cast
    ring

/-- Subtracting the mean makes the sum vanish (also for the empty list,
where the mean expression is the junk value 0). -/
theorem sum_map_sub_mean {α : Type} (l : List α) (f : α → ℚ) :
    (l.map (fun a => f a - (l.map f).sum / (l.length : ℚ))).sum = 0 := by
  rcases l with _ | ⟨a, t⟩
  · simp
  · rw [sum_map_sub_const]
    have hlen : (((a :: t).length : ℚ)) ≠ 0 := by
      simp only [List.length_cons]
      push_cast
      exact Nat.cast_add_one_ne_zero t.length
    field_simp

/-- Summing a mapped negation. -/
theorem sum_map_neg_q {α : Type} (l : List α) (f : α → ℚ) :
    (l.map (fun a => -f a)).sum = -(l.map f).sum := by
  induction l with
  | nil => simp
  | cons a t ih =>
    simp only [List.map_cons, List.sum_cons, ih]
    ring

/-- `tripleSums` of a flatMap of coordinate triples yields the three
component sums. -/
theorem tripleSums_flatMap (l : List RawPoint) (f g h : RawPoint → ℚ) :
    tripleSums (l.flatMap (fun p => [f p, g p, h p]))
      = ((l.map f).sum, (l.map g).sum, (l.map h).sum) := by
  induction l with
  | nil => rfl
  | cons a t ih =>
    have hcons : (a :: t).flatMap (fun p => [f p, g p, h p])
        = f a :: g a :: h a :: t.flatMap (fun p => [f p, g p, h p]) := rfl
    have hts : tripleSums (f a :: g a :: h a :: t.flatMap (fun p => [f p, g p, h p]))
        = (f a + (tripleSums (t.flatMap fun p => [f p, g p, h p])).1,
           g a + (tripleSums (t.flatMap fun p => [f p, g p, h p])).2.1,
           h a + (tripleSums (t.flatMap fun p => [f p, g p, h p])).2.2) := rfl
    rw [hcons, hts, ih]
    simp

end ODM

namespace ODM

/-- Positions centered on the running mean have vanishing componentwise
sums, in exact arithmetic. -/
theorem tripleSums_centered (pts : List RawPoint) :
    tripleSums (pts.flatMap (swapCenter
      ((pts.map RawPoint.x).sum / (pts.length : ℚ))
      ((pts.map RawPoint.y).sum / (pts.length : ℚ))
      ((pts.map RawPoint.z).sum / (pts.length : ℚ)))) = (0, 0, 0) := by
  show tripleSums (pts.flatMap (fun p =>
      [p.x - (pts.map RawPoint.x).sum / (pts.length : ℚ),
       p.z - (pts.map RawPoint.z).sum / (pts.length : ℚ),
       -(p.y - (pts.map RawPoint.y).sum / (pts.length : ℚ))])) = (0, 0, 0)
  rw [tripleSums_flatMap,
    sum_map_sub_mean pts RawPoint.x,
    sum_map_sub_mean pts RawPoint.z,
    sum_map_neg_q pts (fun p => p.y - (pts.map RawPoint.y).sum / (pts.length : ℚ)),
    sum_map_sub_mean pts RawPoint.y]
  simp

/-- C7: in the COPC sub-path the hierarchy nodes are processed in ascending
depth order (the processed list is a depth-sorted permutation of the
hierarchy), points are accumulated across nodes until `maxPoints` is
reached (`pointCount = min(available, maxPoints)`), and the centering
offset is the running mean of the accumulated points — hence, in exact
arithmetic, the componentwise sums of the emitted positions are exactly
zero, which bounding-box-midpoint centering would not guarantee. -/
theorem copc_depth_order_and_mean_centering :
    (∀ nodes : List CopcNode,
      List.Sorted copcDepthLE (copcSortNodes nodes)
      ∧ (copcSortNodes nodes).Perm nodes)
  ∧ (∀ (nodes : List CopcNode) (maxPoints : Nat),
      (copcConvert nodes maxPoints).toOption.map DecodedPoints.pointCount
        = if nodes.isEmpty then none
          else some (min (copcAvailable nodes) maxPoints))
  ∧ (∀ (nodes : List CopcNode) (maxPoints : Nat),
      (copcConvert nodes maxPoints).toOption.map (fun d => tripleSums d.positions)
        = if nodes.isEmpty then none else some (0, 0, 0)) := by
  refine ⟨fun nodes => ⟨List.sorted_insertionSort _ _, List.perm_insertionSort _ _⟩,
    fun nodes maxPoints => ?_, fun nodes maxPoints => ?_⟩
  · cases nodes with
    | nil => rfl
    | cons a t =>
      have hlen := copcAccum_length maxPoints (copcSortNodes (a :: t)) [] (Nat.zero_le _)
      simp only [List.length_nil, Nat.zero_add] at hlen
      show some (copcAccum maxPoints (copcSortNodes (a :: t)) []).length
          = some (min (copcAvailable (a :: t)) maxPoints)
      rw [hlen,
        show (List.map (fun n => n.points.length) (copcSortNodes (a :: t))).sum
            = copcAvailable (a :: t) from copcAvailable_sort (a :: t)]
  · cases nodes with
    | nil => rfl
    | cons a t =>
      exact congrArg some
        (tripleSums_centered (copcAccum maxPoints (copcSortNodes (a :: t)) []))

end ODM

namespace ODM

/-- C3: for every LAS buffer, every emitted point of the LAS decode path
satisfies `output.X = worldX - (minX+maxX)/2`,
`output.Y = worldZ - (minZ+maxZ)/2` and `output.Z = -(worldY -
(minY+maxY)/2)`, where each world coordinate is the signed 32-bit record
value times the header scale plus the header offset, and each center is the
midpoint of the header bounding box (not a running mean). -/
theorem las_decode_centering (buf : List Nat) (fl : LASFloatFields) (maxPoints i : Nat)
    (h : LASHeader) (hh : h = parseLASHeader buf fl)
    (hi : i < (convertToPointsLAS buf fl maxPoints).pointCount) :
    ((convertToPointsLAS buf fl maxPoints).positions.getD (3 * i) 0
      = ((readInt32LE buf (h.offsetToPointData + i * h.pointDataRecordLength) : ℚ)
            * h.scaleX + h.offsetX)
        - (h.minX + h.maxX) / 2)
  ∧ ((convertToPointsLAS buf fl maxPoints).positions.getD (3 * i + 1) 0
      = ((readInt32LE buf (h.offsetToPointData + i * h.pointDataRecordLength + 8) : ℚ)
            * h.scaleZ + h.offsetZ)
        - (h.minZ + h.maxZ) / 2)
  ∧ ((convertToPointsLAS buf fl maxPoints).positions.getD (3 * i + 2) 0
      = -((((readInt32LE buf (h.offsetToPointData + i * h.pointDataRecordLength + 4) : ℚ)
            * h.scaleY + h.offsetY)
        - (h.minY + h.maxY) / 2))) := by
  subst hh
  have hpos : (convertToPointsLAS buf fl maxPoints).positions
      = (List.range (convertToPointsLAS buf fl maxPoints).pointCount).flatMap
          (lasPointPosition (parseLASHeader buf fl) buf) := rfl
  have hlen3 : ∀ j ∈ List.range (convertToPointsLAS buf fl maxPoints).pointCount,
      (lasPointPosition (parseLASHeader buf fl) buf j).length = 3 := fun j _ => rfl
  have hrange : i < (List.range (convertToPointsLAS buf fl maxPoints).pointCount).length := by
    simpa using hi
  refine ⟨?_, ?_, ?_⟩
  · have hidx := flatMap_getD_const _ _ 3 hlen3 i 0 hrange (by omega) 0 (0 : ℚ)
    rw [Nat.add_zero] at hidx
    rw [hpos, hidx, getD_range_eq _ i hi]
    rfl
  · have hidx := flatMap_getD_const _ _ 3 hlen3 i 1 hrange (by omega) 0 (0 : ℚ)
    rw [hpos, hidx, getD_range_eq _ i hi]
    rfl
  · have hidx := flatMap_getD_const _ _ 3 hlen3 i 2 hrange (by omega) 0 (0 : ℚ)
    rw [hpos, hidx, getD_range_eq _ i hi]
    rfl

/-- Witness for C3 at a concrete two-point LAS buffer: the first emitted
point satisfies all three centering and axis-swap equations. -/
theorem las_decode_centering_witness :
    (0 < (convertToPointsLAS sampleLASBuf sampleFloatFields 5).pointCount)
  ∧ ((convertToPointsLAS sampleLASBuf sampleFloatFields 5).positions.getD 0 0
      = ((readInt32LE sampleLASBuf
            ((parseLASHeader sampleLASBuf sampleFloatFields).offsetToPointData
              + 0 * (parseLASHeader sampleLASBuf sampleFloatFields).pointDataRecordLength) : ℚ)
            * (parseLASHeader sampleLASBuf sampleFloatFields).scaleX
            + (parseLASHeader sampleLASBuf sampleFloatFields).offsetX)
        - ((parseLASHeader sampleLASBuf sampleFloatFields).minX
            + (parseLASHeader sampleLASBuf sampleFloatFields).maxX) / 2) := by
  have happ := las_decode_centering sampleLASBuf sampleFloatFields 5 0
    (parseLASHeader sampleLASBuf sampleFloatFields) rfl (by decide)
  exact ⟨by decide, by simpa using happ.1⟩

end ODM

namespace ODM

/-- Every COPC color triple has three entries. -/
theorem copcColor_length (p : RawPoint) : (copcColor p).length = 3 := by
  cases hp : p.rgb with
  | none => simp [copcColor, hp]
  | some v =>
    obtain ⟨r, g, b⟩ := v
    simp [copcColor, hp]

/-- Every sequential-LAZ color triple has three entries. -/
theorem lazSeqColor_length (minZ maxZ : ℚ) (p : RawPoint) :
    (lazSeqColor minZ maxZ p).length = 3 := by
  cases hp : p.rgb with
  | none => simp [lazSeqColor, hp, heightRampColor]
  | some v =>
    obtain ⟨r, g, b⟩ := v
    simp [lazSeqColor, hp]

/-- C1: the format=points wire encoding starts with the point count as a
4-byte little-endian u32, immediately followed by the position bytes and
then the color bytes with no padding, for a total of
`4 + pointCount*12 + pointCount*3` bytes; and every decode path emits
`positions.length = 3 * pointCount` and `colors.length = 3 * pointCount`,
so the byte counts are `pointCount*12` and `pointCount*3`. -/
theorem points_wire_layout :
    (∀ f32 : ℚ → List Nat, (∀ q, (f32 q).length = 4) →
      ∀ d : DecodedPoints,
        d.positions.length = 3 * d.pointCount →
        d.colors.length = 3 * d.pointCount →
        d.pointCount < 4294967296 →
          (encodeDecoded f32 d).length = 4 + d.pointCount * 12 + d.pointCount * 3
        ∧ (encodeDecoded f32 d).take 4 = u32LE d.pointCount
        ∧ readUint32LE (encodeDecoded f32 d) 0 = d.pointCount
        ∧ (encodeDecoded f32 d).drop 4 = d.positions.flatMap f32 ++ d.colors
        ∧ (d.positions.flatMap f32).length = d.pointCount * 12)
  ∧ (∀ (buf : List Nat) (fl : LASFloatFields) (maxPoints : Nat),
      (convertToPointsLAS buf fl maxPoints).positions.length
          = 3 * (convertToPointsLAS buf fl maxPoints).pointCount
      ∧ (convertToPointsLAS buf fl maxPoints).colors.length
          = 3 * (convertToPointsLAS buf fl maxPoints).pointCount)
  ∧ (∀ (nodes : List CopcNode) (maxPoints : Nat),
      (copcConvert nodes maxPoints).toOption.elim True
        (fun d => d.positions.length = 3 * d.pointCount
          ∧ d.colors.length = 3 * d.pointCount))
  ∧ (∀ (pts : List RawPoint) (minZ maxZ : ℚ) (maxPoints : Nat),
      (lazSeqConvert pts pts.length minZ maxZ maxPoints).positions.length
          = 3 * (lazSeqConvert pts pts.length minZ maxZ maxPoints).pointCount
      ∧ (lazSeqConvert pts pts.length minZ maxZ maxPoints).colors.length
          = 3 * (lazSeqConvert pts pts.length minZ maxZ maxPoints).pointCount) := by
  refine ⟨?_, ?_, ?_, ?_⟩
  · intro f32 hf32 d hp hc hlt
    have hposlen : (d.positions.flatMap f32).length = d.pointCount * 12 := by
      rw [flatMap_length_const d.positions f32 4 (fun q _ => hf32 q), hp]
      ring
    refine ⟨?_, rfl, ?_, rfl, hposlen⟩
    · show (u32LE d.pointCount ++ (d.positions.flatMap f32 ++ d.colors)).length
          = 4 + d.pointCount * 12 + d.pointCount * 3
      rw [List.length_append, List.length_append, hposlen, hc]
      show 4 + (d.pointCount * 12 + 3 * d.pointCount) = 4 + d.pointCount * 12 + d.pointCount * 3
      ring
    · show d.pointCount % 256 + 256 * (d.pointCount / 256 % 256)
          + 65536 * (d.pointCount / 65536 % 256)
          + 16777216 * (d.pointCount / 16777216 % 256) = d.pointCount
      omega
  · intro buf fl maxPoints
    constructor
    · have hlen := flatMap_length_const
        (List.range (convertToPointsLAS buf fl maxPoints).pointCount)
        (lasPointPosition (parseLASHeader buf fl) buf) 3 (fun j _ => rfl)
      rw [List.length_range] at hlen
      exact hlen
    · have hcol3 : ∀ j ∈ List.range (convertToPointsLAS buf fl maxPoints).pointCount,
          (lasPointColor (parseLASHeader buf fl) buf j).length = 3 := by
        intro j _
        by_cases hrgb : lasHasRGB (parseLASHeader buf fl).pointDataFormat
            ∧ (parseLASHeader buf fl).offsetToPointData
                + j * (parseLASHeader buf fl).pointDataRecordLength
                + lasRgbOffset (parseLASHeader buf fl).pointDataFormat + 6 ≤ buf.length
        · simp [lasPointColor, hrgb]
        · simp [lasPointColor, hrgb, heightRampColor]
      have hlen := flatMap_length_const
        (List.range (convertToPointsLAS buf fl maxPoints).pointCount)
        (lasPointColor (parseLASHeader buf fl) buf) 3 hcol3
      rw [List.length_range] at hlen
      exact hlen
  · intro nodes maxPoints
    cases nodes with
    | nil => exact trivial
    | cons a t =>
      refine ⟨?_, ?_⟩
      · exact flatMap_length_const _ _ 3 (fun p _ => rfl)
      · exact flatMap_length_const _ _ 3 (fun p _ => copcColor_length p)
  · intro pts minZ maxZ maxPoints
    have hsel : (pts.take (min pts.length maxPoints)).length
        = min pts.length maxPoints := by
      rw [List.length_take]
      omega
    constructor
    · have hflat : (lazSeqConvert pts pts.length minZ maxZ maxPoints).positions.length
          = 3 * (pts.take (min pts.length maxPoints)).length :=
        flatMap_length_const _ _ 3 (fun p _ => rfl)
      rw [hflat, hsel]
      rfl
    · have hflat : (lazSeqConvert pts pts.length minZ maxZ maxPoints).colors.length
          = 3 * (pts.take (min pts.length maxPoints)).length :=
        flatMap_length_const _ _ 3 (fun p _ => lazSeqColor_length minZ maxZ p)
      rw [hflat, hsel]
      rfl

end ODM

namespace ODM

/-- Witness for C1: the wire layout holds at a concretely decoded LAS point
cloud (two points) under a concrete 4-byte-per-value serializer. -/
theorem points_wire_layout_witness :
    ((convertToPointsLAS sampleLASBuf sampleFloatFields 5).positions.length
        = 3 * (convertToPointsLAS sampleLASBuf sampleFloatFields 5).pointCount)
  ∧ ((convertToPointsLAS sampleLASBuf sampleFloatFields 5).colors.length
        = 3 * (convertToPointsLAS sampleLASBuf sampleFloatFields 5).pointCount)
  ∧ ((convertToPointsLAS sampleLASBuf sampleFloatFields 5).pointCount < 4294967296)
  ∧ ((encodeDecoded (fun _ => [0, 0, 0, 0])
        (convertToPointsLAS sampleLASBuf sampleFloatFields 5)).length
      = 4 + (convertToPointsLAS sampleLASBuf sampleFloatFields 5).pointCount * 12
        + (convertToPointsLAS sampleLASBuf sampleFloatFields 5).pointCount * 3)
  ∧ (readUint32LE (encodeDecoded (fun _ => [0, 0, 0, 0])
        (convertToPointsLAS sampleLASBuf sampleFloatFields 5)) 0
      = (convertToPointsLAS sampleLASBuf sampleFloatFields 5).pointCount) :=
  ⟨by decide, by decide, by decide,
   (points_wire_layout.1 (fun _ => [0, 0, 0, 0]) (fun _ => rfl) _
      (by decide) (by decide) (by decide)).1,
   (points_wire_layout.1 (fun _ => [0, 0, 0, 0]) (fun _ => rfl) _
      (by decide) (by decide) (by decide)).2.2.1⟩

/-- C4: path resolution tries the candidates in declared order and returns
the first entry whose archive path equals a candidate exactly; matching is
exact string equality, and with candidates `[a, b, c]` and an archive
holding entries for `b` and `c` but none for `a`, the entry for `b` is
returned. -/
theorem resolvePath_first_match :
    (∀ (files : List ZipEntry) (cands : List String) (e : ZipEntry),
      resolvePath files cands = some e ↔
        ∃ i, i < cands.length ∧ findEntry files (cands.getD i default) = some e
          ∧ ∀ j, j < i → findEntry files (cands.getD j default) = none)
  ∧ (∀ (files : List ZipEntry) (p : String) (e : ZipEntry),
      findEntry files p = some e → e.path = p)
  ∧ (∀ (files : List ZipEntry) (a b c : String),
      findEntry files a = none → (findEntry files b).isSome →
        resolvePath files [a, b, c] = findEntry files b) := by
  refine ⟨?_, ?_, ?_⟩
  · intro files cands e
    induction cands with
    | nil => simp [resolvePath]
    | cons c rest ih =>
      cases hc : findEntry files c with
      | some e1 =>
        simp only [resolvePath, hc]
        constructor
        · intro hsome
          refine ⟨0, by simp, ?_, fun j hj => absurd hj (Nat.not_lt_zero j)⟩
          rw [List.getD_cons_zero, hc]
          exact hsome
        · rintro ⟨i, hi, hfind, hprev⟩
          cases i with
          | zero =>
            rw [List.getD_cons_zero, hc] at hfind
            exact hfind
          | succ i2 =>
            have h0 := hprev 0 (Nat.succ_pos i2)
            rw [List.getD_cons_zero, hc] at h0
            cases h0
      | none =>
        simp only [resolvePath, hc]
        rw [ih]
        constructor
        · rintro ⟨i, hi, hfind, hprev⟩
          refine ⟨i + 1, by simpa using hi, by simpa using hfind, fun j hj => ?_⟩
          cases j with
          | zero => simpa [List.getD_cons_zero] using hc
          | succ j2 => simpa using hprev j2 (Nat.lt_of_succ_lt_succ hj)
        · rintro ⟨i, hi, hfind, hprev⟩
          cases i with
          | zero =>
            rw [List.getD_cons_zero, hc] at hfind
            cases hfind
          | succ i2 =>
            refine ⟨i2, Nat.lt_of_succ_lt_succ hi, by simpa using hfind, fun j hj => ?_⟩
            simpa using hprev (j + 1) (Nat.succ_lt_succ hj)
  · intro files p e hfind
    have := List.find?_some hfind
    exact of_decide_eq_true this
  · intro files a b c ha hb
    obtain ⟨e, he⟩ := Option.isSome_iff_exists.mp hb
    simp [resolvePath, ha, he]

/-- Witness for C4: with candidates containing `b` and `c` entries but no
`a` entry, the resolver returns the `b` entry. -/
theorem resolvePath_first_match_witness :
    (findEntry [ZipEntry.mk "b" 1, ZipEntry.mk "c" 2] "a" = none)
  ∧ ((findEntry [ZipEntry.mk "b" 1, ZipEntry.mk "c" 2] "b").isSome)
  ∧ (resolvePath [ZipEntry.mk "b" 1, ZipEntry.mk "c" 2] ["a", "b", "c"]
      = findEntry [ZipEntry.mk "b" 1, ZipEntry.mk "c" 2] "b")
  ∧ (findEntry [ZipEntry.mk "b" 1, ZipEntry.mk "c" 2] "b" = some (ZipEntry.mk "b" 1)) :=
  ⟨by decide, by decide,
   resolvePath_first_match.2.2 [ZipEntry.mk "b" 1, ZipEntry.mk "c" 2]
     "a" "b" "c" (by decide) (by decide),
   by decide⟩

end ODM

namespace ODM

/-- Exhausting the candidates yields no resolution. -/
theorem resolvePath_eq_none (files : List ZipEntry) (cands : List String)
    (h : ∀ c ∈ cands, findEntry files c = none) :
    resolvePath files cands = none := by
  induction cands with
  | nil => rfl
  | cons c rest ih =>
    simp only [resolvePath, h c (List.mem_cons_self c rest)]
    exact ih (fun x hx => h x (List.mem_cons_of_mem c hx))

/-- C5 counterexample: for a successfully downloaded archive holding none
of the orthophoto candidates, the response is a 500 whose JSON error is the
fixed string `Orthophoto not found in all.zip` — the message does not
enumerate the attempted candidate paths (the candidate list is only logged
to the server console). -/
theorem ortho_missing_message_counterexample :
    ((orthoResponseOnArchive [ZipEntry.mk "odm_dem/dsm.tif" 7]).status = 500)
  ∧ ((orthoResponseOnArchive [ZipEntry.mk "odm_dem/dsm.tif" 7]).error
      = some orthoNotFoundMessage)
  ∧ ¬ (∀ p ∈ orthoPaths, p.data <:+: orthoNotFoundMessage.data) := by
  refine ⟨by decide, by decide, ?_⟩
  intro hall
  exact absurd (hall ("odm_orthophoto/odm_orthophoto" ++ ".png") (by decide)) (by decide)

/-- C5 (amended): when the downloaded archive contains none of the
candidate orthophoto paths, the handler responds with HTTP 500 and the
fixed JSON error message `Orthophoto not found in all.zip`; the attempted
candidate paths are not part of the message. -/
theorem ortho_missing_status_message (files : List ZipEntry)
    (hnone : ∀ f ∈ files, f.path ∉ orthoPaths) :
    (orthoResponseOnArchive files).status = 500
  ∧ (orthoResponseOnArchive files).error = some orthoNotFoundMessage := by
  have hres : resolvePath files orthoPaths = none := by
    refine resolvePath_eq_none files orthoPaths (fun c hc => ?_)
    refine List.find?_eq_none.mpr (fun f hf => ?_)
    have := hnone f hf
    simp only [decide_eq_true_eq]
    intro hpath
    exact this (hpath ▸ hc)
  simp [orthoResponseOnArchive, extractOrthomosaicEntry, hres, orthoCatch]

/-- Witness for C5 (amended) at a concrete archive without orthophoto. -/
theorem ortho_missing_status_message_witness :
    (∀ f ∈ [ZipEntry.mk "odm_georeferencing/odm_georeferenced_model.laz" 3],
      f.path ∉ orthoPaths)
  ∧ ((orthoResponseOnArchive
        [ZipEntry.mk "odm_georeferencing/odm_georeferenced_model.laz" 3]).status = 500)
  ∧ ((orthoResponseOnArchive
        [ZipEntry.mk "odm_georeferencing/odm_georeferenced_model.laz" 3]).error
      = some orthoNotFoundMessage) :=
  ⟨by decide,
   (ortho_missing_status_message
     [ZipEntry.mk "odm_georeferencing/odm_georeferenced_model.laz" 3] (by decide)).1,
   (ortho_missing_status_message
     [ZipEntry.mk "odm_georeferencing/odm_georeferenced_model.laz" 3] (by decide)).2⟩

end ODM

namespace ODM

/-- C6 counterexample: in the COPC sub-path, two points without
Red/Green/Blue dimensions sitting at the lowest and highest height of the
cloud (z = 0 and z = 10) both receive the constant gray (128, 128, 128):
their colors are identical, not distinguishable height-ramp colors. -/
theorem copc_colorless_gray_counterexample :
    ((copcConvert [CopcNode.mk 0
        [RawPoint.mk 0 0 0 none, RawPoint.mk 10 10 10 none]] 10).toOption.map
      DecodedPoints.colors = some [128, 128, 128, 128, 128, 128])
  ∧ ((0 : ℚ) ≠ 10) :=
  ⟨by decide, by norm_num⟩

/-- Indexing `getD` commutes with `take` below the cut. -/
theorem getD_take_eq {α : Type} (l : List α) (n i : Nat) (d : α) (h : i < n) :
    (l.take n).getD i d = l.getD i d := by
  rw [List.getD_eq_getElem?_getD, List.getD_eq_getElem?_getD, List.getElem?_take, if_pos h]

/-- The ramp colors at the bounding-box extremes. -/
theorem heightRamp_at_bounds (minZ maxZ : ℚ) (hlt : minZ < maxZ) :
    heightRampColor minZ minZ maxZ = [0, 255, 255]
  ∧ heightRampColor maxZ minZ maxZ = [255, 55, 0] := by
  have hne : maxZ - minZ ≠ 0 := sub_ne_zero.mpr (ne_of_gt hlt)
  constructor
  · simp only [heightRampColor, sub_self, zero_div]
    norm_num [toUint8]
    decide
  · simp only [heightRampColor, div_self hne]
    norm_num [toUint8]
    decide

/-- C6 (amended): colorless points are always colored deterministically,
but the fallback differs per path.  The LAS path (and the sequential-LAZ
sub-path) synthesizes the color from normalized height via the blue-to-red
ramp, giving a point at minZ the color (0, 255, 255) and a point at maxZ
the color (255, 55, 0), which differ whenever minZ < maxZ; the COPC
sub-path instead assigns every colorless point the constant gray
(128, 128, 128) regardless of height. -/
theorem colorless_fallback_colors :
    (∀ (hd : LASHeader) (buf : List Nat) (i : Nat), hd.pointDataFormat = 0 →
      lasPointColor hd buf i = heightRampColor (lasWorldZ hd buf i) hd.minZ hd.maxZ)
  ∧ (∀ minZ maxZ : ℚ, minZ < maxZ →
      heightRampColor minZ minZ maxZ = [0, 255, 255]
      ∧ heightRampColor maxZ minZ maxZ = [255, 55, 0]
      ∧ heightRampColor minZ minZ maxZ ≠ heightRampColor maxZ minZ maxZ)
  ∧ (∀ p : RawPoint, p.rgb = none → copcColor p = [128, 128, 128])
  ∧ (∀ (pts : List RawPoint) (minZ maxZ : ℚ) (maxPoints i : Nat) (dp : RawPoint),
      i < min pts.length maxPoints →
      (pts.getD i dp).rgb = none →
      [(lazSeqConvert pts pts.length minZ maxZ maxPoints).colors.getD (3 * i) 0,
       (lazSeqConvert pts pts.length minZ maxZ maxPoints).colors.getD (3 * i + 1) 0,
       (lazSeqConvert pts pts.length minZ maxZ maxPoints).colors.getD (3 * i + 2) 0]
        = heightRampColor (pts.getD i dp).z minZ maxZ) := by
  refine ⟨?_, ?_, ?_, ?_⟩
  · intro hd buf i hfmt
    have hno : ¬ (lasHasRGB hd.pointDataFormat
        ∧ hd.offsetToPointData + i * hd.pointDataRecordLength
            + lasRgbOffset hd.pointDataFormat + 6 ≤ buf.length) := by
      rw [hfmt]
      intro hcontra
      exact absurd hcontra.1 (by decide)
    simp [lasPointColor, hno]
  · intro minZ maxZ hlt
    obtain ⟨hmin, hmax⟩ := heightRamp_at_bounds minZ maxZ hlt
    refine ⟨hmin, hmax, ?_⟩
    rw [hmin, hmax]
    decide
  · intro p hp
    simp [copcColor, hp]
  · intro pts minZ maxZ maxPoints i dp hi hrgb
    have hn : i < (pts.take (min pts.length maxPoints)).length := by
      rw [List.length_take]
      omega
    have hsel : (pts.take (min pts.length maxPoints)).getD i dp = pts.getD i dp :=
      getD_take_eq pts (min pts.length maxPoints) i dp hi
    have hcols : (lazSeqConvert pts pts.length minZ maxZ maxPoints).colors
        = (pts.take (min pts.length maxPoints)).flatMap (lazSeqColor minZ maxZ) := rfl
    have h0 := flatMap_getD_const _ _ 3 (fun p _ => lazSeqColor_length minZ maxZ p)
      i 0 hn (by omega) dp (0 : Nat)
    rw [Nat.add_zero] at h0
    have h1 := flatMap_getD_const _ _ 3 (fun p _ => lazSeqColor_length minZ maxZ p)
      i 1 hn (by omega) dp (0 : Nat)
    have h2 := flatMap_getD_const _ _ 3 (fun p _ => lazSeqColor_length minZ maxZ p)
      i 2 hn (by omega) dp (0 : Nat)
    rw [hcols, h0, h1, h2, hsel]
    simp only [lazSeqColor, hrgb]
    rfl

/-- Witness for C6 (amended) at concrete inputs: a format-0 LAS header
falls back to the ramp, the ramp separates the bounding-box extremes of
the sample header, and a colorless COPC point is gray. -/
theorem colorless_fallback_colors_witness :
    ((parseLASHeader sampleLASBuf sampleFloatFields).pointDataFormat = 0)
  ∧ (lasPointColor (parseLASHeader sampleLASBuf sampleFloatFields) sampleLASBuf 0
      = heightRampColor
          (lasWorldZ (parseLASHeader sampleLASBuf sampleFloatFields) sampleLASBuf 0)
          (parseLASHeader sampleLASBuf sampleFloatFields).minZ
          (parseLASHeader sampleLASBuf sampleFloatFields).maxZ)
  ∧ ((0 : ℚ) < 10)
  ∧ (heightRampColor 0 0 10 = [0, 255, 255])
  ∧ (heightRampColor 10 0 10 = [255, 55, 0])
  ∧ ((RawPoint.mk 1 2 3 none).rgb = none)
  ∧ (copcColor (RawPoint.mk 1 2 3 none) = [128, 128, 128]) :=
  ⟨by decide,
   colorless_fallback_colors.1 (parseLASHeader sampleLASBuf sampleFloatFields)
     sampleLASBuf 0 (by decide),
   by simp,
   (colorless_fallback_colors.2.1 0 10 (by simp)).1,
   (colorless_fallback_colors.2.1 0 10 (by simp)).2.1,
   rfl,
   colorless_fallback_colors.2.2.1 (RawPoint.mk 1 2 3 none) rfl⟩

end ODM

namespace ODM

/-- C8: the cache lookup returns the cached file exactly when it exists and
`now - mtime < 3600000`; a file written at T0 is a HIT at T0+59min and
treated as absent at T0+61min, where the handler re-fetches and the expired
file is only overwritten by the subsequent write, never deleted (the state
after any request still holds a file). -/
theorem cache_ttl_semantics :
    (∀ (s : Option CacheFile) (now : Int) (f : CacheFile),
      getCachedFile s now = some f ↔ s = some f ∧ now - f.mtime < 3600000)
  ∧ (∀ (t0 : Int) (content : List Nat),
      getCachedFile (some (CacheFile.mk t0 content)) (t0 + 3540000)
        = some (CacheFile.mk t0 content))
  ∧ (∀ (t0 : Int) (content : List Nat),
      getCachedFile (some (CacheFile.mk t0 content)) (t0 + 3660000) = none)
  ∧ (∀ (t0 : Int) (content fresh : List Nat),
      serveWithCache (some (CacheFile.mk t0 content)) (t0 + 3660000) fresh
        = (fresh, CacheTag.miss, some (CacheFile.mk (t0 + 3660000) fresh)))
  ∧ (∀ (s : Option CacheFile) (now : Int) (fresh : List Nat) (f : CacheFile),
      getCachedFile s now = some f →
        serveWithCache s now fresh = (f.content, CacheTag.hit, s))
  ∧ (∀ (s : Option CacheFile) (now : Int) (fresh : List Nat),
      (serveWithCache s now fresh).2.2 ≠ none) := by
  refine ⟨?_, ?_, ?_, ?_, ?_, ?_⟩
  · intro s now f
    cases s with
    | none => simp [getCachedFile]
    | some g =>
      simp only [getCachedFile]
      by_cases hfresh : now - g.mtime < 3600000
      · simp only [hfresh, if_true]
        constructor
        · intro hsome
          injection hsome with hg
          subst hg
          exact ⟨rfl, hfresh⟩
        · rintro ⟨hg, _⟩
          injection hg with hg
          rw [hg]
      · simp only [hfresh, if_false]
        constructor
        · intro hcontra
          cases hcontra
        · rintro ⟨hg, hlt⟩
          injection hg with hg
          subst hg
          exact absurd hlt hfresh
  · intro t0 content
    simp only [getCachedFile]
    rw [if_pos (by omega)]
  · intro t0 content
    simp only [getCachedFile]
    rw [if_neg (by omega)]
  · intro t0 content fresh
    simp only [serveWithCache, getCachedFile]
    rw [if_neg (by omega)]
    rfl
  · intro s now fresh f hhit
    simp only [serveWithCache, hhit]
  · intro s now fresh
    cases s with
    | none => simp [serveWithCache, getCachedFile, cachePut]
    | some g =>
      simp only [serveWithCache, getCachedFile]
      by_cases hfresh : now - g.mtime < 3600000
      · simp [hfresh]
      · simp [hfresh, cachePut]

/-- Witness for C8: a concrete fresh hit is served from the cache with the
state left untouched. -/
theorem cache_ttl_semantics_witness :
    (getCachedFile (some (CacheFile.mk 0 [5])) 10 = some (CacheFile.mk 0 [5]))
  ∧ (serveWithCache (some (CacheFile.mk 0 [5])) 10 [9]
      = ([5], CacheTag.hit, some (CacheFile.mk 0 [5]))) :=
  ⟨by decide,
   cache_ttl_semantics.2.2.2.2.1 (some (CacheFile.mk 0 [5])) 10 [9]
     (CacheFile.mk 0 [5]) (by decide)⟩

/-- C9: the binary points cache is keyed only by the job id (the file
`taskId.points.bin`); on a fresh hit the cached buffer is returned
unchanged with X-Cache HIT, and the response does not depend on the
requested `maxPoints`, so the served point count is whatever was cached. -/
theorem points_cache_ignores_cap :
    (∀ (s : Option CacheFile) (now : Int) (maxPoints : Nat)
        (decode : Nat → List Nat) (f : CacheFile),
      getCachedFile s now = some f →
        pointsBranch s now maxPoints decode
          = WireResponse.mk f.content CacheTag.hit s)
  ∧ (∀ (s : Option CacheFile) (now : Int) (m1 m2 : Nat) (decode : Nat → List Nat),
      getCachedFile s now ≠ none →
        pointsBranch s now m1 decode = pointsBranch s now m2 decode) := by
  constructor
  · intro s now maxPoints decode f hhit
    simp only [pointsBranch, hhit]
  · intro s now m1 m2 decode hne
    cases hg : getCachedFile s now with
    | none => exact absurd hg hne
    | some f => simp only [pointsBranch, hg]

/-- Witness for C9: a cached buffer encoding 5 points is served verbatim
for a request capped at 2 points — the served count is 5, not 2. -/
theorem points_cache_ignores_cap_witness :
    (pointsBranch (some (CacheFile.mk 0
        (encodePointsWire 5 (List.replicate 60 0) (List.replicate 15 0)))) 1 2
        (fun _ => [])
      = WireResponse.mk
          (encodePointsWire 5 (List.replicate 60 0) (List.replicate 15 0))
          CacheTag.hit
          (some (CacheFile.mk 0
            (encodePointsWire 5 (List.replicate 60 0) (List.replicate 15 0)))))
  ∧ (readUint32LE (encodePointsWire 5 (List.replicate 60 0) (List.replicate 15 0)) 0 = 5)
  ∧ ((5 : Nat) ≠ 2) :=
  ⟨points_cache_ignores_cap.1
      (some (CacheFile.mk 0
        (encodePointsWire 5 (List.replicate 60 0) (List.replicate 15 0)))) 1 2
      (fun _ => [])
      (CacheFile.mk 0 (encodePointsWire 5 (List.replicate 60 0) (List.replicate 15 0)))
      (by decide),
   by decide, by decide⟩

/-- C10: any failure in an info-mode request is answered with the JSON body
available false plus the message at the default status 200 (never 500), in
both the pointcloud and mesh handlers; only non-info requests get status
500 on failure. -/
theorem info_failure_status (msg : String) :
    pointcloudCatch true msg
      = JsonResponse.mk 200 (some false) (some msg)
  ∧ meshCatch true msg
      = JsonResponse.mk 200 (some false) (some msg)
  ∧ (pointcloudCatch true msg).status ≠ 500
  ∧ (meshCatch true msg).status ≠ 500
  ∧ (pointcloudCatch false msg).status = 500
  ∧ (meshCatch false msg).status = 500
  ∧ (pointcloudCatch false msg).error = some msg
  ∧ (meshCatch false msg).error = some msg := by
  refine ⟨rfl, rfl, ?_, ?_, rfl, rfl, rfl, rfl⟩
  · show (200 : Nat) ≠ 500
    decide
  · show (200 : Nat) ≠ 500
    decide

end ODM
